import Mathlib

/-!
Shallow embedding of the collage maker (src/main.cpp) and verification of the
frozen claims about it.

Conventions used throughout:
* C++ `int` values that are nonnegative in every reachable state (image widths
  and heights, grid size, cell sizes, progress values) are modelled as `Nat`;
  grid coordinates, which the drop handler receives as signed `int`s, are
  modelled as `Int`.  Where a C++ `int` product could overflow, theorems carry
  an explicit bound hypothesis so the unbounded model agrees with the program.
* A `QImage` is a width, a height and a pixel function; `QImage()` (the null
  image) is the 0x0 image, and `QImage::isNull` is `width == 0 || height == 0`.
* External Qt routines that the worker calls are parameters of the model:
  `scale` stands for `QImage::scaled(s, s, IgnoreAspectRatio,
  SmoothTransformation)` (the worker always passes a square target size), and
  the success of `QImage::save` is the boolean parameter `saveOk`.
* The worker's observable behaviour (`emit progress`, the file write, and
  `emit finished`) is modelled as the list of events it produces, in order.
-/

namespace Collage

/-- `INT_MAX`, the sentinel used at src/main.cpp:61. -/
def intMax : Nat := 2147483647

/-- A decoded raster: width, height and a pixel lookup (model of `QImage`). -/
structure Image where
  width : Nat
  height : Nat
  pix : Nat → Nat → Nat

/-- `QImage::isNull`: true iff the image has no pixels. -/
def Image.isNull (img : Image) : Bool :=
  img.width == 0 || img.height == 0

/-- `QImage()`, the null image pushed for absent cells (src/main.cpp:53). -/
def nullImage : Image := ⟨0, 0, fun _ _ => 0⟩

/-- `Qt::white` in RGB. -/
def white : Nat := 16777215

/-- `CollageWorker::cropCenterToSquare` (src/main.cpp:131-138): the largest
centered square, via `QImage::copy(left, top, newSize, newSize)`. -/
def cropCenterToSquare (img : Image) : Image :=
  ⟨min img.width img.height, min img.width img.height,
   fun x y =>
     img.pix (x + (img.width - min img.width img.height) / 2)
             (y + (img.height - min img.width img.height) / 2)⟩

/-- One stored cell: source path plus decoded image
(`CollageWorker::ImageData`, src/main.cpp:30-33). -/
structure ImageData where
  path : String
  image : Image

/-- A grid coordinate, as the (signed) pair the drop handler receives. -/
abbrev Coord := Int × Int

/-- The sparse image store `std::map<std::pair<int,int>, ImageData>`
(src/main.cpp:126, 232), as an association list with unique keys. -/
abbrev Store := List (Coord × ImageData)

/-- `std::map::find` on the store (first entry with the given key). -/
def findEntry : Store → Coord → Option ImageData
  | [], _ => none
  | p :: rest, c => if p.1 = c then some p.2 else findEntry rest c

/-- `std::map::operator[] = v`: overwrite the existing entry, else insert. -/
def putEntry : Store → Coord → ImageData → Store
  | [], c, v => [(c, v)]
  | p :: rest, c, v => if p.1 = c then (c, v) :: rest else p :: putEntry rest c v

theorem findEntry_putEntry (s : Store) (c c' : Coord) (v : ImageData) :
    findEntry (putEntry s c v) c' = if c' = c then some v else findEntry s c' := by
  induction s with
  | nil =>
    by_cases h : c' = c
    · simp [putEntry, findEntry, h]
    · have h' : ¬ c = c' := fun hc => h hc.symm
      simp [putEntry, findEntry, h, h']
  | cons p rest ih =>
    by_cases hp : p.1 = c
    · by_cases h : c' = c
      · simp [putEntry, findEntry, hp, h]
      · have h' : ¬ c = c' := fun hc => h hc.symm
        simp [putEntry, findEntry, hp, h, h']
    · simp only [putEntry, hp, if_false, findEntry]
      by_cases hc : p.1 = c'
      · have : ¬ c' = c := fun h => hp (hc.trans h)
        simp [findEntry, hc, this]
      · simp [findEntry, hc, ih]

theorem findEntry_eq_none_of_not_mem (s : Store) (c : Coord)
    (h : c ∉ s.map Prod.fst) : findEntry s c = none := by
  induction s with
  | nil => rfl
  | cons p rest ih =>
    simp only [List.map_cons, List.mem_cons] at h
    push_neg at h
    have hp : ¬ p.1 = c := fun hc => h.1 hc.symm
    simp [findEntry, hp, ih h.2]

theorem findEntry_some_mem (s : Store) (c : Coord) (d : ImageData)
    (h : findEntry s c = some d) : (c, d) ∈ s := by
  induction s with
  | nil => simp [findEntry] at h
  | cons p rest ih =>
    by_cases hp : p.1 = c
    · simp only [findEntry, hp, if_true, Option.some.injEq] at h
      have hpcd : p = (c, d) := by
        calc p = (p.1, p.2) := rfl
          _ = (c, d) := by rw [hp, h]
      rw [← hpcd]
      exact List.mem_cons_self p rest
    · simp only [findEntry, hp, if_false] at h
      exact List.mem_cons_of_mem _ (ih h)

/-- The accepted file extensions (src/main.cpp:408). -/
def validExtensions : List String :=
  ["jpg", "jpeg", "png", "bmp", "gif", "tiff", "webp"]

/-- The characters after the last occurrence of `c`, if `c` occurs. -/
def afterLast (c : Char) : List Char → Option (List Char)
  | [] => none
  | a :: rest =>
    match afterLast c rest with
    | some r => some r
    | none => if a = c then some rest else none

/-- `QFileInfo(path).suffix().toLower()` (src/main.cpp:411): the part of the
file name after its last dot, lower-cased; empty when there is no dot. -/
def lowerSuffix (s : String) : String :=
  String.mk ((((afterLast '.' ((afterLast '/' s.data).getD s.data)).getD []).map
    Char.toLower))

/-- The extension test at src/main.cpp:411. -/
def hasValidExtension (path : String) : Bool :=
  validExtensions.contains (lowerSuffix path)

/-- The pieces of `CollageApp` state the claims are about
(src/main.cpp:230-232). -/
structure AppState where
  gridSize : Nat
  imageData : Store

/-- What `CollageApp::onImageDropped` does, beyond mutating the store:
`notAnImage` is the warning branch (src/main.cpp:411-414), `loadFailed` the
decode-failure branch (417-420), `storedOk` the normal path, and
`storedThenOutOfRange` records that after the store write at line 423 the
access `cells[row][col]` at line 426 indexes outside the cell grid
(undefined behaviour in the C++; the store write has already happened). -/
inductive DropOutcome
  | notAnImage
  | loadFailed
  | storedOk
  | storedThenOutOfRange
deriving DecidableEq

/-- `CollageApp::onImageDropped` (src/main.cpp:407-434).  `fs` models image
decoding, `QImage(filePath)`: the decoded image for a path, the null image
when decoding fails. -/
def onImageDropped (fs : String → Image) (st : AppState) (row col : Int)
    (path : String) : AppState × DropOutcome :=
  if hasValidExtension path = false then (st, DropOutcome.notAnImage)
  else if (fs path).isNull then (st, DropOutcome.loadFailed)
  else
    ({ st with imageData := putEntry st.imageData (row, col) ⟨path, fs path⟩ },
     if 0 ≤ row ∧ row < (st.gridSize : Int) ∧ 0 ≤ col ∧ col < (st.gridSize : Int)
     then DropOutcome.storedOk else DropOutcome.storedThenOutOfRange)

/-- The restore loop of `CollageApp::onGridSizeChanged` (src/main.cpp:487-493):
every saved entry within the new bounds is re-dropped through
`onImageDropped`. -/
def restoreEntries (fs : String → Image) (newSize : Nat) :
    AppState → List (Coord × ImageData) → AppState
  | st, [] => st
  | st, (c, d) :: rest =>
    restoreEntries fs newSize
      (if c.1 < (newSize : Int) ∧ c.2 < (newSize : Int)
       then (onImageDropped fs st c.1 c.2 d.path).1 else st) rest

/-- `CollageApp::onGridSizeChanged` (src/main.cpp:473-495): when the value
actually changed, the store is cleared and the saved entries within the new
bounds are re-dropped. -/
def onGridSizeChanged (fs : String → Image) (st : AppState) (newSize : Nat) :
    AppState :=
  if newSize ≠ st.gridSize then
    restoreEntries fs newSize ⟨newSize, []⟩ st.imageData
  else st

/-- The inputs captured by the `CollageWorker` constructor
(src/main.cpp:35-37, 523). -/
structure JobInput where
  imageData : Store
  gridSize : Nat
  maxCollageSize : Nat
  outputPath : String

/-- The sequence-building lookup (src/main.cpp:49-54): the stored image at
`(i, j)`, or the null image when the cell is absent. -/
def lookupImage (store : Store) (i j : Nat) : Image :=
  match findEntry store ((i : Int), (j : Int)) with
  | some d => d.image
  | none => nullImage

/-- The row-major cell sequence built by the double loop at
src/main.cpp:47-56. -/
def seqOf (inp : JobInput) : List Image :=
  (List.range inp.gridSize).flatMap
    (fun i => (List.range inp.gridSize).map (fun j => lookupImage inp.imageData i j))

/-- `processedImages` (src/main.cpp:60-71): present cells center-cropped,
absent cells kept null. -/
def procOf (inp : JobInput) : List Image :=
  (seqOf inp).map (fun img => if img.isNull then nullImage else cropCenterToSquare img)

/-- The `minSize` fold of src/main.cpp:61-71: starting from `INT_MAX`, take
the minimum of the cropped widths of the present images. -/
def minWidthFold (l : List Image) : Nat :=
  l.foldl (fun m img => if img.isNull then m else min m (cropCenterToSquare img).width)
    intMax

/-- `minSize` after the crop pass. -/
def minSize0 (inp : JobInput) : Nat := minWidthFold (seqOf inp)

/-- The size-cap decision (src/main.cpp:80-84): the common cell size after
clamping. -/
def cellSize (inp : JobInput) : Nat :=
  if inp.gridSize * minSize0 inp > inp.maxCollageSize
  then inp.maxCollageSize / inp.gridSize else minSize0 inp

/-- The final collage side `gridSize * minSize` (src/main.cpp:80-84). -/
def collageSide (inp : JobInput) : Nat := inp.gridSize * cellSize inp

/-- The freshly allocated raster, `collageSize x collageSize` filled white
(src/main.cpp:88-89). -/
def blank (side : Nat) : Image := ⟨side, side, fun _ _ => white⟩

/-- `QPainter::drawImage(x0, y0, cell)` onto an opaque RGB32 target: the
cell's pixels replace the target's on the cell's rectangle. -/
def paintCell (base : Image) (x0 y0 : Nat) (cell : Image) : Image :=
  ⟨base.width, base.height,
   fun x y =>
     if x0 ≤ x ∧ x < x0 + cell.width ∧ y0 ≤ y ∧ y < y0 + cell.height
     then cell.pix (x - x0) (y - y0) else base.pix x y⟩

/-- The paint loop of src/main.cpp:93-105 starting at index `i`: each
non-null entry is scaled to `s x s` and drawn at
`(col * s, row * s)` with `row = i / n`, `col = i % n`. -/
def paintFrom (scale : Image → Nat → Image) (n s : Nat) :
    Nat → List Image → Image → Image
  | _, [], base => base
  | i, img :: rest, base =>
    paintFrom scale n s (i + 1) rest
      (if img.isNull then base
       else paintCell base ((i % n) * s) ((i / n) * s) (scale img s))

/-- The failure reasons distinguishable in the worker's `finished` message. -/
inductive Reason
  | saved
  | noImages
  | saveFailed
deriving DecidableEq

/-- An observable event of the worker: a progress emission, the attempted
file write `collage.save(outputPath)`, or the terminal `finished` signal. -/
inductive Ev
  | progress (v : Nat)
  | fileSave (path : String) (ok : Bool)
  | finished (success : Bool) (reason : Reason)
deriving DecidableEq

/-- The per-cell progress emissions `60 + i * 35 / count`
(src/main.cpp:104). -/
def paintTrace (count : Nat) : List Ev :=
  (List.range count).map (fun i => Ev.progress (60 + i * 35 / count))

/-- `CollageWorker::process` (src/main.cpp:44-123), as the ordered list of
events it emits together with the raster it allocated (`none` on the
no-images early return).  `scale img s` models
`img.scaled(s, s, IgnoreAspectRatio, SmoothTransformation)`; `saveOk` models
the return value of `QImage::save`. -/
def process (scale : Image → Nat → Image) (saveOk : Bool) (inp : JobInput) :
    List Ev × Option Image :=
  if minSize0 inp = intMax then
    ([Ev.progress 20, Ev.finished false Reason.noImages], none)
  else
    ([Ev.progress 20, Ev.progress 40, Ev.progress 60] ++
       paintTrace (procOf inp).length ++
       [Ev.progress 95, Ev.fileSave inp.outputPath saveOk, Ev.progress 100,
        Ev.finished saveOk (if saveOk then Reason.saved else Reason.saveFailed)],
     some (paintFrom scale inp.gridSize (cellSize inp) 0 (procOf inp)
       (blank (collageSide inp))))

/-- A run of the whole background job when a cancellation request is raised
before loop iteration `cancelAtIteration` of the paint loop.  The request is
modelled as an explicit argument, and the model discards it, because the
program gives it no observation point: the worker's `process`
(src/main.cpp:44-123) reads no cancellation flag anywhere, and the progress
dialog's `canceled` signal is connected only to `QThread::quit`
(src/main.cpp:539), which merely stops the worker thread's event loop once
the currently executing slot — `process` itself — has returned.  A pending
cancellation therefore changes nothing the worker does. -/
def runJobWithCancel (scale : Image → Nat → Image) (saveOk : Bool)
    (inp : JobInput) (cancelAtIteration : Nat) : List Ev × Option Image :=
  process scale saveOk inp

/-- The progress values of a trace, in emission order. -/
def progressValues (tr : List Ev) : List Nat :=
  tr.filterMap (fun e => match e with | Ev.progress v => some v | _ => none)

/-- The width of a possibly-absent raster. -/
def rasterWidth (o : Option Image) : Nat :=
  match o with | some r => r.width | none => 0

/-- The height of a possibly-absent raster. -/
def rasterHeight (o : Option Image) : Nat :=
  match o with | some r => r.height | none => 0

/-- A pixel of a possibly-absent raster. -/
def rasterPix (o : Option Image) (x y : Nat) : Nat :=
  match o with | some r => r.pix x y | none => 0

/-- The widths of the present images of a cell sequence after cropping. -/
def presentWidthsL (l : List Image) : List Nat :=
  (l.filter (fun img => !img.isNull)).map
    (fun img => (cropCenterToSquare img).width)

/-- The widths of the present cells after the crop pass — the sizes the
specification's `commonCellSize` minimum ranges over. -/
def presentWidths (inp : JobInput) : List Nat :=
  presentWidthsL (seqOf inp)

/-- The i-th element of the row-major cell sequence. -/
def cellAt (inp : JobInput) (i : Nat) : Image :=
  (seqOf inp).getD i nullImage

/-- Fallback composition used to state what a rebuilt store looks up. -/
def orElseFind (o : Option ImageData) (fb : Option ImageData) : Option ImageData :=
  match o with
  | some d => some d
  | none => fb

theorem onImageDropped_gridSize (fs : String → Image) (st : AppState)
    (row col : Int) (path : String) :
    (onImageDropped fs st row col path).1.gridSize = st.gridSize := by
  by_cases h1 : hasValidExtension path = false <;>
    by_cases h2 : (fs path).isNull <;> simp [onImageDropped, h1, h2]

theorem onImageDropped_stores (fs : String → Image) (st : AppState)
    (row col : Int) (path : String) (hext : hasValidExtension path = true)
    (himg : (fs path).isNull = false) :
    (onImageDropped fs st row col path).1 =
      { st with imageData := putEntry st.imageData (row, col) ⟨path, fs path⟩ } := by
  simp [onImageDropped, hext, himg]

theorem restoreEntries_gridSize (fs : String → Image) (newSize : Nat) :
    ∀ (l : Store) (st : AppState),
      (restoreEntries fs newSize st l).gridSize = st.gridSize := by
  intro l
  induction l with
  | nil => intro st; rfl
  | cons p rest ih =>
    intro st
    obtain ⟨c, d⟩ := p
    simp only [restoreEntries]
    rw [ih]
    by_cases h : c.1 < (newSize : Int) ∧ c.2 < (newSize : Int)
    · simp [h, onImageDropped_gridSize]
    · simp [h]

theorem restoreEntries_findEntry (fs : String → Image) (newSize : Nat) :
    ∀ (l : Store) (st : AppState) (c : Coord),
    (∀ p ∈ l, hasValidExtension p.2.path = true ∧ fs p.2.path = p.2.image ∧
      p.2.image.isNull = false) →
    (l.map Prod.fst).Nodup →
    findEntry (restoreEntries fs newSize st l).imageData c =
      if c.1 < (newSize : Int) ∧ c.2 < (newSize : Int)
      then orElseFind (findEntry l c) (findEntry st.imageData c)
      else findEntry st.imageData c := by
  intro l
  induction l with
  | nil =>
    intro st c _ _
    simp [restoreEntries, findEntry, orElseFind]
  | cons hd rest ih =>
    intro st c hl hnd
    obtain ⟨c₀, d₀⟩ := hd
    have h₀ := hl (c₀, d₀) (List.mem_cons_self _ _)
    have hrest : ∀ p ∈ rest, hasValidExtension p.2.path = true ∧
        fs p.2.path = p.2.image ∧ p.2.image.isNull = false :=
      fun p hp => hl p (List.mem_cons_of_mem _ hp)
    rw [List.map_cons, List.nodup_cons] at hnd
    simp only [restoreEntries]
    rw [ih _ _ hrest hnd.2]
    have hst' : (if c₀.1 < (newSize : Int) ∧ c₀.2 < (newSize : Int)
        then (onImageDropped fs st c₀.1 c₀.2 d₀.path).1 else st).imageData =
        if c₀.1 < (newSize : Int) ∧ c₀.2 < (newSize : Int)
        then putEntry st.imageData c₀ d₀ else st.imageData := by
      by_cases hb : c₀.1 < (newSize : Int) ∧ c₀.2 < (newSize : Int)
      · rw [if_pos hb, if_pos hb,
          onImageDropped_stores fs st c₀.1 c₀.2 d₀.path h₀.1
            (by have h2 : fs d₀.path = d₀.image := h₀.2.1
                rw [h2]; exact h₀.2.2)]
        have heta : (⟨d₀.path, fs d₀.path⟩ : ImageData) = d₀ := by
          have h2 : fs d₀.path = d₀.image := h₀.2.1
          rw [h2]
        rw [heta]
      · rw [if_neg hb, if_neg hb]
    rw [hst']
    by_cases hc : c₀ = c
    · rw [← hc]
      have hfr : findEntry rest c₀ = none :=
        findEntry_eq_none_of_not_mem rest c₀ hnd.1
      by_cases hb : c₀.1 < (newSize : Int) ∧ c₀.2 < (newSize : Int)
      · rw [if_pos hb, if_pos hb, if_pos hb, hfr]
        simp [orElseFind, findEntry, findEntry_putEntry]
      · rw [if_neg hb, if_neg hb, if_neg hb]
    · have hhead : findEntry ((c₀, d₀) :: rest) c = findEntry rest c := by
        simp [findEntry, hc]
      have hput : findEntry (if c₀.1 < (newSize : Int) ∧ c₀.2 < (newSize : Int)
          then putEntry st.imageData c₀ d₀ else st.imageData) c =
          findEntry st.imageData c := by
        by_cases hb : c₀.1 < (newSize : Int) ∧ c₀.2 < (newSize : Int)
        · rw [if_pos hb, findEntry_putEntry,
            if_neg (fun h => hc h.symm)]
        · rw [if_neg hb]
      rw [hput, hhead]

/-- C5: a grid-dimension change to `newN` drops exactly the out-of-bounds
entries and retains the rest unchanged, given the store invariants that the
program maintains: every stored coordinate is within the current grid, every
stored entry decodes (via the unchanged filesystem `fs`) to exactly the image
it holds with an accepted extension, and keys are unique.  Afterwards every
stored coordinate is within the new bounds. -/
theorem onGridSizeChanged_spec (fs : String → Image) (st : AppState) (newN : Nat)
    (hinv : ∀ p ∈ st.imageData, 0 ≤ p.1.1 ∧ p.1.1 < (st.gridSize : Int) ∧
      0 ≤ p.1.2 ∧ p.1.2 < (st.gridSize : Int))
    (hload : ∀ p ∈ st.imageData, hasValidExtension p.2.path = true ∧
      fs p.2.path = p.2.image ∧ p.2.image.isNull = false)
    (hnd : (st.imageData.map Prod.fst).Nodup) :
    (onGridSizeChanged fs st newN).gridSize = newN ∧
    (∀ c : Coord,
      findEntry (onGridSizeChanged fs st newN).imageData c =
        if c.1 < (newN : Int) ∧ c.2 < (newN : Int)
        then findEntry st.imageData c else none) ∧
    (∀ c : Coord, ¬(0 ≤ c.1 ∧ c.1 < (newN : Int) ∧ 0 ≤ c.2 ∧
        c.2 < (newN : Int)) →
      findEntry (onGridSizeChanged fs st newN).imageData c = none) := by
  have hbound : ∀ c : Coord, findEntry st.imageData c ≠ none →
      0 ≤ c.1 ∧ c.1 < (st.gridSize : Int) ∧ 0 ≤ c.2 ∧ c.2 < (st.gridSize : Int) := by
    intro c hc
    obtain ⟨d, hd⟩ := Option.ne_none_iff_exists'.mp hc
    exact hinv (c, d) (findEntry_some_mem _ _ _ hd)
  have hmain : ∀ c : Coord,
      findEntry (onGridSizeChanged fs st newN).imageData c =
        if c.1 < (newN : Int) ∧ c.2 < (newN : Int)
        then findEntry st.imageData c else none := by
    intro c
    by_cases hne : newN ≠ st.gridSize
    · rw [onGridSizeChanged, if_pos hne,
        restoreEntries_findEntry fs newN st.imageData ⟨newN, []⟩ c hload hnd]
      by_cases hb : c.1 < (newN : Int) ∧ c.2 < (newN : Int)
      · rw [if_pos hb, if_pos hb]
        cases hfe : findEntry st.imageData c <;> simp [orElseFind, findEntry]
      · rw [if_neg hb, if_neg hb]
        rfl
    · rw [onGridSizeChanged, if_neg hne]
      push_neg at hne
      by_cases hb : c.1 < (newN : Int) ∧ c.2 < (newN : Int)
      · rw [if_pos hb]
      · rw [if_neg hb]
        by_contra hc
        have := hbound c hc
        rw [← hne] at this
        exact hb ⟨this.2.1, this.2.2.2⟩
  refine ⟨?_, hmain, ?_⟩
  · by_cases hne : newN ≠ st.gridSize
    · rw [onGridSizeChanged, if_pos hne, restoreEntries_gridSize]
    · push_neg at hne
      rw [onGridSizeChanged, if_neg (by rw [hne]; simp), hne]
  · intro c hcb
    rw [hmain c]
    by_cases hb : c.1 < (newN : Int) ∧ c.2 < (newN : Int)
    · rw [if_pos hb]
      by_contra hc
      have h0 := hbound c hc
      exact hcb ⟨h0.1, hb.1, h0.2.2.1, hb.2⟩
    · rw [if_neg hb]

/-! ### Concrete data used by witnesses and counterexamples -/

/-- A 5x3 test image with distinguishable pixels. -/
def img5x3 : Image := ⟨5, 3, fun x y => 10 * x + y⟩

/-- A 4x4 test image. -/
def img4 : Image := ⟨4, 4, fun x y => 100 * x + y⟩

/-- A 6x8 test image. -/
def img6x8 : Image := ⟨6, 8, fun x y => 1000 + 10 * x + y⟩

/-- A 2000x2000 test image (for the spec's size-cap example). -/
def img2000 : Image := ⟨2000, 2000, fun x y => x + y⟩

/-- A decode model that decodes every path to `img4`. -/
def fsAll4 : String → Image := fun _ => img4

/-- An `.png` path. -/
def pngPath : String := "a.png"

/-- A path with a non-image extension. -/
def txtPath : String := "notes.txt"

/-- An empty 3x3 application state. -/
def emptyApp : AppState := ⟨3, []⟩

/-- C3: `cropCenterToSquare` produces the `S x S` centered region,
`S = min(W, H)`, with the floor-division offsets, for any non-empty image. -/
theorem cropCenterToSquare_spec (img : Image) (hW : 1 ≤ img.width)
    (hH : 1 ≤ img.height) :
    (cropCenterToSquare img).width = min img.width img.height ∧
    (cropCenterToSquare img).height = min img.width img.height ∧
    ∀ x y, (cropCenterToSquare img).pix x y =
      img.pix (x + (img.width - min img.width img.height) / 2)
              (y + (img.height - min img.width img.height) / 2) :=
  ⟨rfl, rfl, fun _ _ => rfl⟩

theorem cropCenterToSquare_spec_witness :
    1 ≤ img5x3.width ∧ 1 ≤ img5x3.height ∧
    (cropCenterToSquare img5x3).width = 3 ∧
    (cropCenterToSquare img5x3).pix 0 0 = img5x3.pix 1 0 := by
  have h := cropCenterToSquare_spec img5x3 (by decide) (by decide)
  exact ⟨by decide, by decide, h.1.trans (by decide), h.2.2 0 0⟩

/-- C10: a drop whose file extension is not accepted, or whose file fails to
decode, leaves the application state (and so the image store) completely
unchanged. -/
theorem onImageDropped_invalid_keeps_store (fs : String → Image)
    (st : AppState) (row col : Int) (path : String)
    (h : hasValidExtension path = false ∨ (fs path).isNull = true) :
    (onImageDropped fs st row col path).1 = st ∧
    ((onImageDropped fs st row col path).2 = DropOutcome.notAnImage ∨
     (onImageDropped fs st row col path).2 = DropOutcome.loadFailed) := by
  rcases h with h | h
  · simp [onImageDropped, h]
  · by_cases he : hasValidExtension path = false
    · simp [onImageDropped, he]
    · simp [onImageDropped, he, h]

theorem onImageDropped_invalid_keeps_store_witness :
    hasValidExtension txtPath = false ∧
    (onImageDropped fsAll4 emptyApp 0 0 txtPath).1 = emptyApp :=
  ⟨by decide,
   (onImageDropped_invalid_keeps_store fsAll4 emptyApp 0 0 txtPath
     (Or.inl (by decide))).1⟩

/-- C8 counterexample: an out-of-bounds drop at `(5, 0)` on a 3x3 grid with a
valid, decodable image file is *not* rejected and does *not* leave the store
unchanged — the entry is created (then the cell-widget lookup goes out of
range). -/
theorem onImageDropped_oob_mutates_store :
    findEntry emptyApp.imageData (5, 0) = none ∧
    findEntry (onImageDropped fsAll4 emptyApp 5 0 pngPath).1.imageData (5, 0)
      = some ⟨pngPath, img4⟩ ∧
    (onImageDropped fsAll4 emptyApp 5 0 pngPath).2
      = DropOutcome.storedThenOutOfRange :=
  ⟨rfl, rfl, rfl⟩

/-- C8 as amended: `onImageDropped` performs no coordinate validation.  For a
coordinate outside the current grid (or negative) with an accepted extension
and a decodable image, the entry is stored into the image store
unconditionally, and the subsequent cell-widget access
`cells[row][col]` (src/main.cpp:426) indexes out of range — there is no
`OutOfBoundsError` rejection and the store is not left unchanged. -/
theorem onImageDropped_oob_stores_unconditionally (fs : String → Image)
    (st : AppState) (row col : Int) (path : String)
    (hext : hasValidExtension path = true)
    (himg : (fs path).isNull = false)
    (hoob : ¬(0 ≤ row ∧ row < (st.gridSize : Int) ∧ 0 ≤ col ∧
      col < (st.gridSize : Int))) :
    (onImageDropped fs st row col path).1.imageData
      = putEntry st.imageData (row, col) ⟨path, fs path⟩ ∧
    (onImageDropped fs st row col path).2
      = DropOutcome.storedThenOutOfRange := by
  simp [onImageDropped, hext, himg, hoob]

theorem onImageDropped_oob_stores_unconditionally_witness :
    hasValidExtension pngPath = true ∧
    (onImageDropped fsAll4 emptyApp (-1) 2 pngPath).1.imageData
      = putEntry emptyApp.imageData (-1, 2) ⟨pngPath, img4⟩ ∧
    (onImageDropped fsAll4 emptyApp (-1) 2 pngPath).2
      = DropOutcome.storedThenOutOfRange := by
  have h := onImageDropped_oob_stores_unconditionally fsAll4 emptyApp (-1) 2
    pngPath (by decide) (by decide) (by decide)
  exact ⟨by decide, h.1, h.2⟩

/-- A decode model for the C5 witness store: each of the three stored paths
decodes to its stored image. -/
def fsThree : String → Image := fun s =>
  if s = "a.png" then img4 else if s = "b.jpg" then img5x3 else
  if s = "c.bmp" then img6x8 else nullImage

/-- A 3x3 state populated at (0,0), (1,1), (2,2) — the spec's
`retainWithinBounds` example. -/
def stThree : AppState :=
  ⟨3, [((0, 0), ⟨"a.png", img4⟩), ((1, 1), ⟨"b.jpg", img5x3⟩),
      ((2, 2), ⟨"c.bmp", img6x8⟩)]⟩

theorem onGridSizeChanged_spec_witness :
    findEntry (onGridSizeChanged fsThree stThree 2).imageData (2, 2) = none ∧
    findEntry (onGridSizeChanged fsThree stThree 2).imageData (0, 0)
      = findEntry stThree.imageData (0, 0) ∧
    findEntry (onGridSizeChanged fsThree stThree 2).imageData (1, 1)
      = findEntry stThree.imageData (1, 1) ∧
    (onGridSizeChanged fsThree stThree 2).gridSize = 2 := by
  have h := onGridSizeChanged_spec fsThree stThree 2
    (by intro p hp
        simp only [stThree, List.mem_cons, List.not_mem_nil, or_false] at hp
        rcases hp with rfl | rfl | rfl <;> exact ⟨by decide, by decide, by decide, by decide⟩)
    (by intro p hp
        simp only [stThree, List.mem_cons, List.not_mem_nil, or_false] at hp
        rcases hp with rfl | rfl | rfl <;> exact ⟨by decide, rfl, by decide⟩)
    (by decide)
  refine ⟨?_, ?_, ?_, h.1⟩
  · rw [h.2.1 (2, 2), if_neg (by decide)]
  · rw [h.2.1 (0, 0), if_pos (by decide)]
  · rw [h.2.1 (1, 1), if_pos (by decide)]

/-! ### The minimum-size fold -/

theorem foldl_min_acc (l : List Nat) : ∀ a b : Nat,
    l.foldl min (min a b) = min a (l.foldl min b) := by
  induction l with
  | nil => intro a b; rfl
  | cons c t ih =>
    intro a b
    simp only [List.foldl_cons]
    rw [Nat.min_assoc, ih]

theorem foldl_min_le_init (l : List Nat) : ∀ a : Nat, l.foldl min a ≤ a := by
  induction l with
  | nil => intro a; exact Nat.le_refl a
  | cons c t ih =>
    intro a
    simp only [List.foldl_cons]
    exact Nat.le_trans (ih (min a c)) (Nat.min_le_left a c)

theorem foldl_min_lower (l : List Nat) : ∀ a : Nat, 1 ≤ a →
    (∀ w ∈ l, 1 ≤ w) → 1 ≤ l.foldl min a := by
  induction l with
  | nil => intro a ha _; exact ha
  | cons c t ih =>
    intro a ha hl
    simp only [List.foldl_cons]
    exact ih (min a c) (le_min ha (hl c (List.mem_cons_self _ _)))
      (fun w hw => hl w (List.mem_cons_of_mem _ hw))

theorem foldl_min_eq_min? (l : List Nat) : ∀ a : Nat,
    (a :: l).min? = some (l.foldl min a) := by
  induction l with
  | nil => intro a; rfl
  | cons c t ih =>
    intro a
    rw [List.min?_cons, ih c]
    show some (min a (t.foldl min c)) = some ((c :: t).foldl min a)
    rw [List.foldl_cons, foldl_min_acc]

theorem minWidthFold_go (l : List Image) : ∀ a : Nat,
    l.foldl (fun m img => if img.isNull then m
      else min m (cropCenterToSquare img).width) a =
    (presentWidthsL l).foldl min a := by
  induction l with
  | nil => intro a; rfl
  | cons img t ih =>
    intro a
    by_cases himg : img.isNull
    · have h1 : presentWidthsL (img :: t) = presentWidthsL t := by
        simp [presentWidthsL, List.filter_cons, himg]
      rw [h1, List.foldl_cons]
      simp only [himg, if_true]
      exact ih a
    · have h1 : presentWidthsL (img :: t)
          = (cropCenterToSquare img).width :: presentWidthsL t := by
        simp [presentWidthsL, List.filter_cons, himg]
      rw [h1, List.foldl_cons, List.foldl_cons]
      simp only [himg, if_false]
      exact ih _

theorem minWidthFold_eq_foldl (l : List Image) :
    minWidthFold l = (presentWidthsL l).foldl min intMax :=
  minWidthFold_go l intMax

theorem one_le_presentWidth (l : List Image) :
    ∀ w ∈ presentWidthsL l, 1 ≤ w := by
  intro w hw
  simp only [presentWidthsL, List.mem_map, List.mem_filter] at hw
  obtain ⟨img, ⟨_, hpres⟩, rfl⟩ := hw
  simp only [Image.isNull, Bool.not_eq_true', Bool.or_eq_false_iff,
    beq_eq_false_iff_ne, ne_eq] at hpres
  have h1 : 1 ≤ img.width := Nat.one_le_iff_ne_zero.mpr hpres.1
  have h2 : 1 ≤ img.height := Nat.one_le_iff_ne_zero.mpr hpres.2
  exact le_min h1 h2

theorem minWidthFold_all_null (l : List Image)
    (h : ∀ img ∈ l, img.isNull = true) : minWidthFold l = intMax := by
  rw [minWidthFold_eq_foldl]
  have hnil : presentWidthsL l = [] := by
    simp only [presentWidthsL, List.map_eq_nil_iff, List.filter_eq_nil_iff]
    intro img himg
    simp [h img himg]
  rw [hnil]
  rfl

/-- When some image is present and the fold never sees an overflowing width,
`minSize` is exactly the minimum of the present cropped widths (and in
particular strictly below the `INT_MAX` sentinel). -/
theorem minWidthFold_spec (l : List Image)
    (hpres : ∃ img ∈ l, img.isNull = false)
    (hwid : ∀ w ∈ presentWidthsL l, w < intMax) :
    (presentWidthsL l).min? = some (minWidthFold l) ∧ minWidthFold l < intMax := by
  obtain ⟨img, himg, hn⟩ := hpres
  have hmem : (cropCenterToSquare img).width ∈ presentWidthsL l := by
    simp only [presentWidthsL, List.mem_map]
    refine ⟨img, List.mem_filter.mpr ⟨himg, ?_⟩, rfl⟩
    simp [hn]
  obtain ⟨a, t, hat⟩ := List.exists_cons_of_ne_nil (List.ne_nil_of_mem hmem)
  have ha : a < intMax := by
    apply hwid
    rw [hat]
    exact List.mem_cons_self _ _
  have hfold : minWidthFold l = t.foldl min a := by
    rw [minWidthFold_eq_foldl, hat, List.foldl_cons,
      Nat.min_eq_right (Nat.le_of_lt ha)]
  constructor
  · rw [hat, foldl_min_eq_min?, hfold]
  · rw [hfold]
    exact Nat.lt_of_le_of_lt (foldl_min_le_init t a) ha

theorem one_le_minWidthFold (l : List Image) :
    1 ≤ minWidthFold l := by
  rw [minWidthFold_eq_foldl]
  exact foldl_min_lower _ intMax (by decide) (one_le_presentWidth l)

/-- C4: over a cell sequence with no present image the worker fails with the
no-images error: the terminal notification reports failure, no raster is
allocated, and no file write is attempted. -/
theorem process_all_absent_fails (scale : Image → Nat → Image) (saveOk : Bool)
    (inp : JobInput) (habs : ∀ img ∈ seqOf inp, img.isNull = true) :
    (process scale saveOk inp).2 = none ∧
    (process scale saveOk inp).1 =
      [Ev.progress 20, Ev.finished false Reason.noImages] ∧
    ∀ p b, Ev.fileSave p b ∉ (process scale saveOk inp).1 := by
  have hmin : minSize0 inp = intMax := minWidthFold_all_null _ habs
  refine ⟨?_, ?_, ?_⟩
  · simp [process, hmin]
  · simp [process, hmin]
  · intro p b
    simp [process, hmin]

/-- A concrete stand-in for `QImage::scaled` used by witnesses: sampling
resize to exactly `s x s`. -/
def fsScale : Image → Nat → Image := fun img s =>
  ⟨s, s, fun x y => img.pix (x * img.width / s) (y * img.height / s)⟩

/-- An all-absent input: a 2x2 grid whose store is empty. -/
def inpEmpty : JobInput := ⟨[], 2, 4000, "out.png"⟩

theorem process_all_absent_fails_witness :
    (∀ img ∈ seqOf inpEmpty, img.isNull = true) ∧
    (process fsScale true inpEmpty).2 = none ∧
    (process fsScale true inpEmpty).1 =
      [Ev.progress 20, Ev.finished false Reason.noImages] :=
  ⟨by decide,
   (process_all_absent_fails fsScale true inpEmpty (by decide)).1,
   (process_all_absent_fails fsScale true inpEmpty (by decide)).2.1⟩

/-! ### The row-major sequence -/

theorem flatMap_range_eq {α : Type} (g : Nat → Nat → α) (m : Nat) :
    ∀ R : Nat, (List.range R).flatMap (fun i => (List.range m).map (g i)) =
      (List.range (R * m)).map (fun k => g (k / m) (k % m)) := by
  intro R
  induction R with
  | zero => simp
  | succ R ih =>
    rw [List.range_succ, List.flatMap_append, ih, Nat.succ_mul,
      List.range_add, List.map_append, List.map_map]
    congr 1
    · simp only [List.flatMap_cons, List.flatMap_nil, List.append_nil]
      apply List.map_congr_left
      intro j hj
      rw [List.mem_range] at hj
      have hm : 0 < m := Nat.lt_of_le_of_lt (Nat.zero_le j) hj
      simp only [Function.comp]
      rw [Nat.add_comm (R * m) j, Nat.mul_comm R m,
        Nat.add_mul_div_left j R hm, Nat.div_eq_of_lt hj, Nat.zero_add,
        Nat.add_mul_mod_self_left, Nat.mod_eq_of_lt hj]

theorem seqOf_eq_map (inp : JobInput) :
    seqOf inp = (List.range (inp.gridSize * inp.gridSize)).map
      (fun k => lookupImage inp.imageData (k / inp.gridSize) (k % inp.gridSize)) :=
  flatMap_range_eq _ _ _

theorem seqOf_length (inp : JobInput) :
    (seqOf inp).length = inp.gridSize * inp.gridSize := by
  rw [seqOf_eq_map, List.length_map, List.length_range]

theorem cellAt_eq (inp : JobInput) (k : Nat)
    (hk : k < inp.gridSize * inp.gridSize) :
    cellAt inp k = lookupImage inp.imageData (k / inp.gridSize)
      (k % inp.gridSize) := by
  rw [cellAt, List.getD_eq_getElem _ _ (by rw [seqOf_length]; exact hk)]
  have hk' : k < (List.range (inp.gridSize * inp.gridSize)).length := by
    rw [List.length_range]; exact hk
  simp only [seqOf_eq_map, List.getElem_map, List.getElem_range]

theorem procOf_length (inp : JobInput) :
    (procOf inp).length = inp.gridSize * inp.gridSize := by
  rw [procOf, List.length_map, seqOf_length]

theorem procOf_getD (inp : JobInput) (k : Nat)
    (hk : k < inp.gridSize * inp.gridSize) :
    (procOf inp).getD k nullImage =
      (if (cellAt inp k).isNull then nullImage
       else cropCenterToSquare (cellAt inp k)) := by
  have h1 : k < (seqOf inp).length := by rw [seqOf_length]; exact hk
  rw [procOf, List.getD_eq_getElem _ _ (by rw [List.length_map, seqOf_length]; exact hk),
    List.getElem_map, cellAt, List.getD_eq_getElem _ _ h1]

/-! ### Dimensions of the painted raster -/

theorem paintFrom_width (scale : Image → Nat → Image) (n s : Nat) :
    ∀ (l : List Image) (i : Nat) (base : Image),
      (paintFrom scale n s i l base).width = base.width := by
  intro l
  induction l with
  | nil => intro i base; rfl
  | cons img rest ih =>
    intro i base
    rw [paintFrom, ih]
    by_cases himg : img.isNull <;> simp [himg, paintCell]

theorem paintFrom_height (scale : Image → Nat → Image) (n s : Nat) :
    ∀ (l : List Image) (i : Nat) (base : Image),
      (paintFrom scale n s i l base).height = base.height := by
  intro l
  induction l with
  | nil => intro i base; rfl
  | cons img rest ih =>
    intro i base
    rw [paintFrom, ih]
    by_cases himg : img.isNull <;> simp [himg, paintCell]

/-- C1: with at least one populated cell (and no fold value at the `INT_MAX`
sentinel), the common cell size is the minimum cropped width of the present
images, clamped to `maxCollageSize / gridSize` exactly when
`gridSize * (that minimum)` exceeds `maxCollageSize`, and the raster the
worker allocates is square of side `gridSize * cellSize`. -/
theorem process_cell_size_spec (scale : Image → Nat → Image) (saveOk : Bool)
    (inp : JobInput)
    (hpres : ∃ img ∈ seqOf inp, img.isNull = false)
    (hwid : ∀ w ∈ presentWidths inp, w < intMax) :
    ∃ m, (presentWidths inp).min? = some m ∧
      cellSize inp = (if inp.gridSize * m > inp.maxCollageSize
        then inp.maxCollageSize / inp.gridSize else m) ∧
      rasterWidth (process scale saveOk inp).2 = inp.gridSize * cellSize inp ∧
      rasterHeight (process scale saveOk inp).2 = inp.gridSize * cellSize inp := by
  obtain ⟨hmin, hlt⟩ := minWidthFold_spec (seqOf inp) hpres hwid
  have hne : minSize0 inp ≠ intMax := Nat.ne_of_lt hlt
  refine ⟨minSize0 inp, hmin, rfl, ?_, ?_⟩
  · rw [process, if_neg hne]
    show (paintFrom scale inp.gridSize (cellSize inp) 0 (procOf inp)
      (blank (collageSide inp))).width = inp.gridSize * cellSize inp
    rw [paintFrom_width]
    rfl
  · rw [process, if_neg hne]
    show (paintFrom scale inp.gridSize (cellSize inp) 0 (procOf inp)
      (blank (collageSide inp))).height = inp.gridSize * cellSize inp
    rw [paintFrom_height]
    rfl

/-- The spec's size-cap example: a 3x3 grid with one 2000x2000 image and
`maxCollageSize = 4000`. -/
def inpCap : JobInput := ⟨[((0, 0), ⟨"big.png", img2000⟩)], 3, 4000, "out.png"⟩

theorem process_cell_size_spec_witness :
    (presentWidths inpCap).min? = some 2000 ∧ cellSize inpCap = 1333 ∧
    rasterWidth (process fsScale true inpCap).2 = 3999 ∧
    rasterHeight (process fsScale true inpCap).2 = 3999 := by
  obtain ⟨m, hm, hc, hw, hh⟩ := process_cell_size_spec fsScale true inpCap
    (by decide) (by decide)
  have hm2000 : m = 2000 := by
    have : (presentWidths inpCap).min? = some 2000 := by decide
    rw [this] at hm
    exact (Option.some.injEq _ _).mp hm.symm
  subst hm2000
  have hc' : cellSize inpCap = 1333 := by
    rw [hc]
    decide
  refine ⟨hm, hc', ?_, ?_⟩
  · rw [hw, hc']
    decide
  · rw [hh, hc']
    decide

/-- C9: with at least one populated cell and `maxCollageSize < gridSize`, the
size cap triggers, the clamped cell size is `maxCollageSize / gridSize = 0`,
the collage side becomes `0`, and the worker still proceeds past the clamp:
it allocates a 0x0 raster and terminates with a reason other than the
no-images error. -/
theorem process_clamp_to_zero (scale : Image → Nat → Image) (saveOk : Bool)
    (inp : JobInput)
    (hpres : ∃ img ∈ seqOf inp, img.isNull = false)
    (hwid : ∀ w ∈ presentWidths inp, w < intMax)
    (hMN : inp.maxCollageSize < inp.gridSize) :
    inp.gridSize * minSize0 inp > inp.maxCollageSize ∧
    cellSize inp = inp.maxCollageSize / inp.gridSize ∧
    cellSize inp = 0 ∧ collageSide inp = 0 ∧
    (process scale saveOk inp).2.isSome = true ∧
    rasterWidth (process scale saveOk inp).2 = 0 ∧
    rasterHeight (process scale saveOk inp).2 = 0 ∧
    (∃ pre b rn, (process scale saveOk inp).1 = pre ++ [Ev.finished b rn] ∧
      rn ≠ Reason.noImages) := by
  obtain ⟨hmin, hlt⟩ := minWidthFold_spec (seqOf inp) hpres hwid
  have hne : minSize0 inp ≠ intMax := Nat.ne_of_lt hlt
  have hone : 1 ≤ minSize0 inp := one_le_minWidthFold (seqOf inp)
  have hgt : inp.gridSize * minSize0 inp > inp.maxCollageSize :=
    Nat.lt_of_lt_of_le hMN
      (Nat.le_mul_of_pos_right inp.gridSize hone)
  have hcell : cellSize inp = inp.maxCollageSize / inp.gridSize := by
    rw [cellSize, if_pos hgt]
  have hzero : cellSize inp = 0 := by
    rw [hcell]
    exact Nat.div_eq_of_lt hMN
  have hside : collageSide inp = 0 := by
    rw [collageSide, hzero, Nat.mul_zero]
  refine ⟨hgt, hcell, hzero, hside, ?_, ?_, ?_, ?_⟩
  · rw [process, if_neg hne]
    rfl
  · rw [process, if_neg hne]
    show (paintFrom scale inp.gridSize (cellSize inp) 0 (procOf inp)
      (blank (collageSide inp))).width = 0
    rw [paintFrom_width]
    exact hside
  · rw [process, if_neg hne]
    show (paintFrom scale inp.gridSize (cellSize inp) 0 (procOf inp)
      (blank (collageSide inp))).height = 0
    rw [paintFrom_height]
    exact hside
  · rw [process, if_neg hne]
    refine ⟨[Ev.progress 20, Ev.progress 40, Ev.progress 60] ++
      paintTrace (procOf inp).length ++
      [Ev.progress 95, Ev.fileSave inp.outputPath saveOk, Ev.progress 100],
      saveOk, if saveOk then Reason.saved else Reason.saveFailed, ?_, ?_⟩
    · simp
    · cases saveOk <;> decide

/-- A 3x3 grid with one 5x5 image and the (unreachable through the UI, but
accepted by the worker) cap `maxCollageSize = 2 < 3`. -/
def inpTiny : JobInput := ⟨[((0, 0), ⟨"small.png", img4⟩)], 3, 2, "out.png"⟩

theorem process_clamp_to_zero_witness :
    inpTiny.maxCollageSize < inpTiny.gridSize ∧
    cellSize inpTiny = 0 ∧ collageSide inpTiny = 0 ∧
    (process fsScale true inpTiny).2.isSome = true ∧
    rasterWidth (process fsScale true inpTiny).2 = 0 := by
  have h := process_clamp_to_zero fsScale true inpTiny
    (by decide) (by decide) (by decide)
  exact ⟨by decide, h.2.2.1, h.2.2.2.1, h.2.2.2.2.1, h.2.2.2.2.2.1⟩

/-! ### The progress protocol -/

theorem progressValues_append (a b : List Ev) :
    progressValues (a ++ b) = progressValues a ++ progressValues b :=
  List.filterMap_append a b _

theorem progressValues_map_progress (l : List Nat) (g : Nat → Nat) :
    progressValues (l.map (fun i => Ev.progress (g i))) = l.map g := by
  induction l with
  | nil => rfl
  | cons i t ih =>
    simp only [progressValues, List.map_cons, List.filterMap_cons]
    show g i :: progressValues (t.map (fun i => Ev.progress (g i)))
      = g i :: t.map g
    rw [ih]

theorem progressValues_paintTrace (L : Nat) :
    progressValues (paintTrace L) =
      (List.range L).map (fun i => 60 + i * 35 / L) :=
  progressValues_map_progress _ _

theorem paintStep_mono (L : Nat) : ∀ i j : Nat, i ≤ j →
    60 + i * 35 / L ≤ 60 + j * 35 / L := fun _ _ hij =>
  Nat.add_le_add_left (Nat.div_le_div_right (Nat.mul_le_mul_right 35 hij)) 60

theorem paintStep_ub (L : Nat) (hL : 0 < L) : ∀ i : Nat, i < L →
    60 + i * 35 / L ≤ 94 := by
  intro i hi
  have h1 : i * 35 / L < 35 := by
    rw [Nat.div_lt_iff_lt_mul hL]
    omega
  omega

theorem chain'_progressList (L : Nat) (hL : 0 < L) :
    List.Chain' (fun a b => a ≤ b)
      (20 :: 40 :: 60 :: ((List.range L).map (fun i => 60 + i * 35 / L) ++
        [95, 100])) := by
  obtain ⟨L', rfl⟩ : ∃ L', L = L' + 1 := ⟨L - 1, by omega⟩
  have hchainMap : List.Chain' (fun a b => a ≤ b)
      ((List.range (L' + 1)).map (fun i => 60 + i * 35 / (L' + 1))) :=
    List.Pairwise.chain'
      (List.Pairwise.map _
        (fun a b hab => paintStep_mono (L' + 1) a b (Nat.le_of_lt hab))
        (List.pairwise_lt_range (L' + 1)))
  have htail : List.Chain' (fun a b => a ≤ b)
      ((List.range (L' + 1)).map (fun i => 60 + i * 35 / (L' + 1)) ++
        [95, 100]) := by
    rw [List.chain'_append]
    refine ⟨hchainMap, List.chain'_cons.mpr ⟨by omega,
      List.chain'_singleton 100⟩, ?_⟩
    intro x hx y hy
    simp only [List.head?_cons, Option.mem_def, Option.some.injEq] at hy
    subst hy
    rw [List.range_succ, List.map_append, List.map_cons, List.map_nil,
      List.getLast?_concat] at hx
    simp only [Option.mem_def, Option.some.injEq] at hx
    subst hx
    exact Nat.le_trans (paintStep_ub (L' + 1) (by omega) L' (by omega))
      (by omega)
  refine List.chain'_cons.mpr ⟨by omega, List.chain'_cons.mpr ⟨by omega,
    List.chain'_cons'.mpr ⟨?_, htail⟩⟩⟩
  intro y hy
  rw [List.range_succ_eq_map, List.map_cons] at hy
  simp only [List.cons_append, List.head?_cons, Option.mem_def,
    Option.some.injEq] at hy
  subst hy
  exact Nat.le_add_right 60 _

/-- C7: for every job run, the emitted progress values are non-decreasing and
lie in `[0, 100]`, the value `100` is emitted only when the run got past
raster allocation (never on the no-images failure), and the terminal
`finished` notification is emitted exactly once, as the last event. -/
theorem process_progress_protocol (scale : Image → Nat → Image)
    (saveOk : Bool) (inp : JobInput) :
    List.Chain' (fun a b => a ≤ b)
      (progressValues (process scale saveOk inp).1) ∧
    (∀ v ∈ progressValues (process scale saveOk inp).1, v ≤ 100) ∧
    (100 ∈ progressValues (process scale saveOk inp).1 →
      (process scale saveOk inp).2.isSome = true) ∧
    (∃ pre b rn, (process scale saveOk inp).1 = pre ++ [Ev.finished b rn] ∧
      ∀ e ∈ pre, ∀ b2 rn2, e ≠ Ev.finished b2 rn2) := by
  by_cases hmin : minSize0 inp = intMax
  · rw [process, if_pos hmin]
    refine ⟨?_, ?_, ?_, ?_⟩
    · show List.Chain' _ [20]
      exact List.chain'_singleton 20
    · intro v hv
      show v ≤ 100
      have : v = 20 := by
        simpa [progressValues, List.filterMap_cons] using hv
      omega
    · intro h
      have : (100 : Nat) = 20 := by
        simpa [progressValues, List.filterMap_cons] using h
      omega
    · exact ⟨[Ev.progress 20], false, Reason.noImages, rfl, by
        intro e he b2 rn2
        simp only [List.mem_singleton] at he
        subst he
        simp⟩
  · have hseq : seqOf inp ≠ [] := by
      intro h
      apply hmin
      rw [minSize0, h]
      rfl
    have hL : 0 < (procOf inp).length := by
      rw [procOf, List.length_map]
      exact List.length_pos.mpr hseq
    have hpv : progressValues (process scale saveOk inp).1 =
        20 :: 40 :: 60 :: ((List.range (procOf inp).length).map
          (fun i => 60 + i * 35 / (procOf inp).length) ++ [95, 100]) := by
      rw [process, if_neg hmin]
      show progressValues ([Ev.progress 20, Ev.progress 40, Ev.progress 60] ++
        paintTrace (procOf inp).length ++ _) = _
      rw [progressValues_append, progressValues_append,
        progressValues_paintTrace]
      have h2 : progressValues [Ev.progress 95,
          Ev.fileSave inp.outputPath saveOk, Ev.progress 100,
          Ev.finished saveOk (if saveOk then Reason.saved
            else Reason.saveFailed)] = [95, 100] := by
        cases saveOk <;> rfl
      rw [h2]
      rfl
    refine ⟨?_, ?_, ?_, ?_⟩
    · rw [hpv]
      exact chain'_progressList (procOf inp).length hL
    · intro v hv
      rw [hpv] at hv
      simp only [List.mem_cons, List.mem_append, List.mem_map,
        List.mem_range] at hv
      rcases hv with rfl | rfl | rfl | ⟨⟨i, hi, rfl⟩ | hv⟩
      · omega
      · omega
      · omega
      · exact Nat.le_trans (paintStep_ub (procOf inp).length hL i hi) (by omega)
      · simp only [List.mem_cons, List.not_mem_nil, or_false] at hv
        rcases hv with rfl | rfl <;> omega
    · intro _
      rw [process, if_neg hmin]
      rfl
    · rw [process, if_neg hmin]
      refine ⟨[Ev.progress 20, Ev.progress 40, Ev.progress 60] ++
        paintTrace (procOf inp).length ++
        [Ev.progress 95, Ev.fileSave inp.outputPath saveOk, Ev.progress 100],
        saveOk, if saveOk then Reason.saved else Reason.saveFailed, by simp, ?_⟩
      intro e he b2 rn2
      simp only [List.mem_append, List.mem_cons, List.not_mem_nil, or_false,
        paintTrace, List.mem_map, List.mem_range] at he
      rcases he with ((rfl | rfl | rfl) | ⟨i, hi, rfl⟩) | (rfl | rfl | rfl) <;>
        simp

/-! ### Pixel-level facts about the paint loop -/

/-- The pixel rectangle that cell `k` of the row-major grid occupies:
column `k % n`, row `k / n`, cell size `s`. -/
def inRect (n s k x y : Nat) : Prop :=
  (k % n) * s ≤ x ∧ x < (k % n) * s + s ∧
  (k / n) * s ≤ y ∧ y < (k / n) * s + s

theorem interval_eq (s a b x : Nat) (ha1 : a * s ≤ x) (ha2 : x < a * s + s)
    (hb1 : b * s ≤ x) (hb2 : x < b * s + s) : a = b := by
  by_contra hne
  rcases Nat.lt_or_ge a b with h | h
  · have h2 : (a + 1) * s ≤ b * s := Nat.mul_le_mul_right s h
    rw [Nat.succ_mul] at h2
    omega
  · have hba : a + 1 ≤ b + 1 → False := by
      intro hc
      exact hne (Nat.le_antisymm (by omega) h)
    have h2 : (b + 1) * s ≤ a * s := Nat.mul_le_mul_right s (by omega)
    rw [Nat.succ_mul] at h2
    omega

theorem inRect_eq (n s i j x y : Nat) (h1 : inRect n s i x y)
    (h2 : inRect n s j x y) : i = j := by
  obtain ⟨hi1, hi2, hi3, hi4⟩ := h1
  obtain ⟨hj1, hj2, hj3, hj4⟩ := h2
  have hcol : i % n = j % n := interval_eq s _ _ x hi1 hi2 hj1 hj2
  have hrow : i / n = j / n := interval_eq s _ _ y hi3 hi4 hj3 hj4
  calc i = n * (i / n) + i % n := (Nat.div_add_mod i n).symm
    _ = n * (j / n) + j % n := by rw [hrow, hcol]
    _ = j := Nat.div_add_mod j n

theorem cropCenterToSquare_isNull (img : Image) :
    (cropCenterToSquare img).isNull = img.isNull := by
  simp only [Image.isNull, cropCenterToSquare, Bool.or_self]
  by_cases h : min img.width img.height = 0
  · have h' := h
    rw [Nat.min_eq_zero_iff] at h'
    rcases h' with h' | h' <;> simp [h, h']
  · have h' := h
    rw [Nat.min_eq_zero_iff] at h'
    push_neg at h'
    have hL : (min img.width img.height == 0) = false := by
      simp [h]
    have hR : (img.width == 0 || img.height == 0) = false := by
      simp [h'.1, h'.2]
    rw [hL, hR]

theorem paintFrom_pix_outside (scale : Image → Nat → Image) (n s : Nat)
    (hscale : ∀ img t, (scale img t).width = t ∧ (scale img t).height = t) :
    ∀ (l : List Image) (i : Nat) (base : Image) (x y : Nat),
    (∀ j, j < l.length → (l.getD j nullImage).isNull = false →
      ¬ inRect n s (i + j) x y) →
    (paintFrom scale n s i l base).pix x y = base.pix x y := by
  intro l
  induction l with
  | nil => intro i base x y _; rfl
  | cons img rest ih =>
    intro i base x y h
    have hshift : ∀ j, j < rest.length →
        (rest.getD j nullImage).isNull = false →
        ¬ inRect n s (i + 1 + j) x y := by
      intro j hj hnull
      have h' := h (j + 1) (by rw [List.length_cons]; omega)
        (by rw [List.getD_cons_succ]; exact hnull)
      rw [show i + 1 + j = i + (j + 1) from by omega]
      exact h'
    rw [paintFrom]
    by_cases himg : img.isNull
    · rw [if_pos himg]
      exact ih (i + 1) base x y hshift
    · rw [if_neg himg]
      rw [ih (i + 1) _ x y hshift]
      have h0 := h 0 (by rw [List.length_cons]; omega)
        (by rw [List.getD_cons_zero]; simpa using himg)
      rw [Nat.add_zero] at h0
      show (if (i % n) * s ≤ x ∧ x < (i % n) * s + (scale img s).width ∧
          (i / n) * s ≤ y ∧ y < (i / n) * s + (scale img s).height
        then (scale img s).pix (x - (i % n) * s) (y - (i / n) * s)
        else base.pix x y) = base.pix x y
      rw [(hscale img s).1, (hscale img s).2]
      exact if_neg h0

theorem paintFrom_pix_at (scale : Image → Nat → Image) (n s : Nat)
    (hscale : ∀ img t, (scale img t).width = t ∧ (scale img t).height = t) :
    ∀ (l : List Image) (k i : Nat) (base : Image) (x y : Nat),
    k < l.length → (l.getD k nullImage).isNull = false →
    inRect n s (i + k) x y →
    (∀ j, j < l.length → j ≠ k → (l.getD j nullImage).isNull = false →
      ¬ inRect n s (i + j) x y) →
    (paintFrom scale n s i l base).pix x y =
      (scale (l.getD k nullImage) s).pix (x - ((i + k) % n) * s)
        (y - ((i + k) / n) * s) := by
  intro l
  induction l with
  | nil =>
    intro k i base x y hk
    rw [List.length_nil] at hk
    omega
  | cons img rest ih =>
    intro k i base x y hk hpres hrect hothers
    cases k with
    | zero =>
      rw [List.getD_cons_zero] at hpres ⊢
      rw [Nat.add_zero] at hrect ⊢
      have hframe : ∀ j, j < rest.length →
          (rest.getD j nullImage).isNull = false →
          ¬ inRect n s (i + 1 + j) x y := by
        intro j hj hnull
        have h' := hothers (j + 1) (by rw [List.length_cons]; omega)
          (Nat.succ_ne_zero j) (by rw [List.getD_cons_succ]; exact hnull)
        rw [show i + 1 + j = i + (j + 1) from by omega]
        exact h'
      rw [paintFrom, if_neg (by simp [hpres])]
      rw [paintFrom_pix_outside scale n s hscale rest (i + 1) _ x y hframe]
      have hc : (i % n) * s ≤ x ∧ x < (i % n) * s + (scale img s).width ∧
          (i / n) * s ≤ y ∧ y < (i / n) * s + (scale img s).height := by
        rw [(hscale img s).1, (hscale img s).2]
        exact hrect
      exact if_pos hc
    | succ k' =>
      have hidx : i + (k' + 1) = (i + 1) + k' := by omega
      rw [List.getD_cons_succ] at hpres ⊢
      rw [hidx] at hrect ⊢
      have hothers' : ∀ j, j < rest.length → j ≠ k' →
          (rest.getD j nullImage).isNull = false →
          ¬ inRect n s ((i + 1) + j) x y := by
        intro j hj hne hnull
        have h' := hothers (j + 1) (by rw [List.length_cons]; omega)
          (by omega) (by rw [List.getD_cons_succ]; exact hnull)
        rw [show i + 1 + j = i + (j + 1) from by omega]
        exact h'
      have hk' : k' < rest.length := by
        rw [List.length_cons] at hk
        omega
      rw [paintFrom]
      by_cases himg : img.isNull
      · rw [if_pos himg]
        exact ih k' (i + 1) base x y hk' hpres hrect hothers'
      · rw [if_neg himg]
        exact ih k' (i + 1) _ x y hk' hpres hrect hothers'

/-- C2: with at least one populated cell, the worker allocates a square
raster of side `collageSide`; each present cell `i` (row `i / N`,
column `i % N`) is painted at offset `(col * cellSize, row * cellSize)` with
the crop of that cell resized to exactly `cellSize x cellSize`; every pixel
of an absent cell's region keeps the white background fill; and the run
terminates with a reason other than the no-images error (absent cells are
not an error). -/
theorem process_composites_cells (scale : Image → Nat → Image)
    (saveOk : Bool) (inp : JobInput)
    (hscale : ∀ img t, (scale img t).width = t ∧ (scale img t).height = t)
    (hpres : ∃ img ∈ seqOf inp, img.isNull = false)
    (hwid : ∀ w ∈ presentWidths inp, w < intMax) :
    ∃ r, (process scale saveOk inp).2 = some r ∧
      r.width = collageSide inp ∧ r.height = collageSide inp ∧
      (∀ i, i < inp.gridSize * inp.gridSize →
        (cellAt inp i).isNull = false →
        ∀ x y, x < cellSize inp → y < cellSize inp →
          r.pix ((i % inp.gridSize) * cellSize inp + x)
                ((i / inp.gridSize) * cellSize inp + y)
            = (scale (cropCenterToSquare (cellAt inp i)) (cellSize inp)).pix x y) ∧
      (∀ i, i < inp.gridSize * inp.gridSize →
        (cellAt inp i).isNull = true →
        ∀ x y, x < cellSize inp → y < cellSize inp →
          r.pix ((i % inp.gridSize) * cellSize inp + x)
                ((i / inp.gridSize) * cellSize inp + y) = white) ∧
      (∃ pre b rn, (process scale saveOk inp).1 = pre ++ [Ev.finished b rn] ∧
        rn ≠ Reason.noImages) := by
  obtain ⟨hmin, hlt⟩ := minWidthFold_spec (seqOf inp) hpres hwid
  have hne : minSize0 inp ≠ intMax := Nat.ne_of_lt hlt
  have hL : (procOf inp).length = inp.gridSize * inp.gridSize :=
    procOf_length inp
  refine ⟨paintFrom scale inp.gridSize (cellSize inp) 0 (procOf inp)
    (blank (collageSide inp)), by rw [process, if_neg hne], ?_, ?_, ?_, ?_, ?_⟩
  · rw [paintFrom_width]; rfl
  · rw [paintFrom_height]; rfl
  · intro i hi hcell x y hx hy
    have hrect : inRect inp.gridSize (cellSize inp) i
        ((i % inp.gridSize) * cellSize inp + x)
        ((i / inp.gridSize) * cellSize inp + y) :=
      ⟨Nat.le_add_right _ _, Nat.add_lt_add_left hx _,
       Nat.le_add_right _ _, Nat.add_lt_add_left hy _⟩
    have hgd : (procOf inp).getD i nullImage
        = cropCenterToSquare (cellAt inp i) := by
      rw [procOf_getD inp i hi, if_neg (by simp [hcell])]
    have hpres' : ((procOf inp).getD i nullImage).isNull = false := by
      rw [hgd, cropCenterToSquare_isNull]
      exact hcell
    have h := paintFrom_pix_at scale inp.gridSize (cellSize inp) hscale
      (procOf inp) i 0 (blank (collageSide inp))
      ((i % inp.gridSize) * cellSize inp + x)
      ((i / inp.gridSize) * cellSize inp + y)
      (by rw [hL]; exact hi) hpres'
      (by rw [Nat.zero_add]; exact hrect)
      (by intro j hj hne' hnull
          rw [Nat.zero_add]
          intro hin
          exact hne' (inRect_eq inp.gridSize (cellSize inp) j i _ _ hin hrect))
    rw [h, hgd, Nat.zero_add, Nat.add_sub_cancel_left, Nat.add_sub_cancel_left]
  · intro i hi hcell x y hx hy
    have hrect : inRect inp.gridSize (cellSize inp) i
        ((i % inp.gridSize) * cellSize inp + x)
        ((i / inp.gridSize) * cellSize inp + y) :=
      ⟨Nat.le_add_right _ _, Nat.add_lt_add_left hx _,
       Nat.le_add_right _ _, Nat.add_lt_add_left hy _⟩
    have h := paintFrom_pix_outside scale inp.gridSize (cellSize inp) hscale
      (procOf inp) 0 (blank (collageSide inp))
      ((i % inp.gridSize) * cellSize inp + x)
      ((i / inp.gridSize) * cellSize inp + y)
      (by intro j hj hnull
          rw [Nat.zero_add]
          intro hin
          have hji : j = i := inRect_eq inp.gridSize (cellSize inp) j i _ _
            hin hrect
          subst hji
          have : (cellAt inp j).isNull = false := by
            have hgd := procOf_getD inp j (by rw [← hL]; exact hj)
            by_cases hc : (cellAt inp j).isNull
            · rw [hgd, if_pos hc] at hnull
              simp [nullImage, Image.isNull] at hnull
            · simpa using hc
          rw [hcell] at this
          exact Bool.true_eq_false.mp this)
    rw [h]
    rfl
  · rw [process, if_neg hne]
    refine ⟨[Ev.progress 20, Ev.progress 40, Ev.progress 60] ++
      paintTrace (procOf inp).length ++
      [Ev.progress 95, Ev.fileSave inp.outputPath saveOk, Ev.progress 100],
      saveOk, if saveOk then Reason.saved else Reason.saveFailed, by simp, ?_⟩
    cases saveOk <;> decide

/-- A 2x2 grid populated at (0,0) with the 4x4 image and at (1,1) with the
6x8 image; (0,1) and (1,0) are absent. -/
def inpC2 : JobInput :=
  ⟨[((0, 0), ⟨"a.png", img4⟩), ((1, 1), ⟨"b.png", img6x8⟩)], 2, 4000, "c.png"⟩

theorem process_composites_cells_witness :
    rasterWidth (process fsScale true inpC2).2 = 8 ∧
    rasterPix (process fsScale true inpC2).2 5 5 = 1012 ∧
    rasterPix (process fsScale true inpC2).2 5 2 = white := by
  obtain ⟨r, hr, hw, hh, hpaint, hbg, _⟩ :=
    process_composites_cells fsScale true inpC2
      (fun img t => ⟨rfl, rfl⟩) (by decide) (by decide)
  refine ⟨?_, ?_, ?_⟩
  · rw [hr]
    show r.width = 8
    rw [hw]
    decide
  · rw [hr]
    show r.pix 5 5 = 1012
    have hp := hpaint 3 (by decide) (by decide) 1 1 (by decide) (by decide)
    exact hp.trans (by decide)
  · rw [hr]
    show r.pix 5 2 = white
    exact hbg 1 (by decide) (by decide) 1 2 (by decide) (by decide)

/-- A 1x1 grid with a single image, the input of the cancellation run. -/
def inpOne : JobInput := ⟨[((0, 0), ⟨"a.png", img4⟩)], 1, 4000, "out.png"⟩

/-- C6 evaluated at the failing input: a cancellation request raised before
any cell is painted (`cancelAtIteration = 0`) changes nothing — the run
still emits its entire trace, including the committed file write at the
destination path and a successful terminal notification, and allocates the
raster.  There is no `Cancelled` outcome anywhere in the worker: `process`
(src/main.cpp:44-123) checks no cancellation flag at its loop boundaries (or
anywhere else), and the `canceled -> QThread::quit` connection at
src/main.cpp:539 only ends the worker thread's event loop after `process`
has already returned. -/
theorem runJobWithCancel_still_writes :
    (runJobWithCancel fsScale true inpOne 0).1 =
      [Ev.progress 20, Ev.progress 40, Ev.progress 60, Ev.progress 60,
       Ev.progress 95, Ev.fileSave "out.png" true, Ev.progress 100,
       Ev.finished true Reason.saved] ∧
    (runJobWithCancel fsScale true inpOne 0).2.isSome = true := by
  constructor
  · decide
  · decide

end Collage
